import Mathlib

/-!
Verification of the Generic Excel Processor's column-identification and
row-normalization engine against its natural-language specification.

The Python source (`Generic-Excel-Processor.py`) is shallowly embedded here:

* spreadsheet cells are the inductive type `Cell` (blank / string / number);
  numbers are rationals (the claims under study never depend on binary
  floating-point rounding);
* Python string operations (`lower`, `strip`, `replace`, `in`,
  `re.sub(r'\s+', ' ', _)`, `float(_)`) are modelled character-by-character;
  `lower`/`upper` are modelled for ASCII and the Cyrillic blocks that occur in
  the program's header keywords, `float` parsing for the sign/digits/decimal
  point/exponent grammar (the special spellings `inf`, `nan` and underscore
  separators never occur in the claims and are not modelled);
* `pd.isna` is true exactly on blank cells, and `str()` of a blank cell is
  the string "nan", as for a pandas missing value;
* `pd.to_numeric(_, errors='coerce')` keeps numeric cells and parses strings
  with the same numeric grammar, yielding `none` (pandas `NaN`) on failure.

Every function of the source that the claims touch is translated below under
its original name (`normalize_text`, `find_best_column`, `clean_currency`,
`extract_room_count`, `find_header_row`, `process_sheet`,
`generate_summary`).
-/

attribute [local semireducible] Rat.mul Rat.add Rat.inv Rat.sub Rat.ofScientific

namespace GEP

/-- Characters treated as whitespace by Python's `str.strip`, `str.lower`
pipelines and by `re.sub(r'\s+', ...)` for the inputs occurring here
(ASCII whitespace plus the no-break space U+00A0). -/
def isPySpace (c : Char) : Bool :=
  c = ' ' || c = '\t' || c = '\n' || c = '\r' || c = '\x0b' || c = '\x0c' ||
    c = '\u00A0'

/-- Python `str.lower` on one character, for ASCII letters and the Cyrillic
ranges U+0400–U+042F plus Ґ (U+0490) that appear in the program's keywords. -/
def pyLowerChar (c : Char) : Char :=
  let n := c.toNat
  if 65 ≤ n ∧ n ≤ 90 then Char.ofNat (n + 32)
  else if 1040 ≤ n ∧ n ≤ 1071 then Char.ofNat (n + 32)
  else if 1024 ≤ n ∧ n ≤ 1039 then Char.ofNat (n + 80)
  else if n = 1168 then Char.ofNat 1169
  else c

/-- Python `str.upper` on one character, inverse of `pyLowerChar` on the same
ranges. -/
def pyUpperChar (c : Char) : Char :=
  let n := c.toNat
  if 97 ≤ n ∧ n ≤ 122 then Char.ofNat (n - 32)
  else if 1072 ≤ n ∧ n ≤ 1103 then Char.ofNat (n - 32)
  else if 1104 ≤ n ∧ n ≤ 1119 then Char.ofNat (n - 80)
  else if n = 1169 then Char.ofNat 1168
  else c

/-- Python `s.lower()`. -/
def pyLowerS (s : String) : String := ⟨s.toList.map pyLowerChar⟩

/-- Python `s.upper()`. -/
def pyUpperS (s : String) : String := ⟨s.toList.map pyUpperChar⟩

/-- Python `s.strip()` on a character list: drop whitespace at both ends. -/
def stripChars (cs : List Char) : List Char :=
  ((cs.dropWhile isPySpace).reverse.dropWhile isPySpace).reverse

/-- Python `s.strip()`. -/
def pyStrip (s : String) : String := ⟨stripChars s.toList⟩

/-- Auxiliary for `re.sub(r'\s+', ' ', s)`: the flag records whether the
previous character was part of a whitespace run already emitted as `' '`. -/
def collapseWsAux : Bool → List Char → List Char
  | _, [] => []
  | inRun, c :: cs =>
    if isPySpace c then
      if inRun then collapseWsAux true cs else ' ' :: collapseWsAux true cs
    else c :: collapseWsAux false cs

/-- Python `re.sub(r'\s+', ' ', s)`: collapse every whitespace run to one
space. -/
def collapseWs (cs : List Char) : List Char := collapseWsAux false cs

/-- Python substring test `needle in hay` on character lists. -/
def listContains (needle : List Char) : List Char → Bool
  | [] => needle.isEmpty
  | c :: rest => needle.isPrefixOf (c :: rest) || listContains needle rest

/-- Python substring test `needle in hay`. -/
def strContains (hay needle : String) : Bool := listContains needle.toList hay.toList

/-- Numeric value of a digit run. -/
def digitsVal (ds : List Char) : Nat :=
  ds.foldl (fun n c => 10 * n + (c.toNat - 48)) 0

/-- First maximal run of ASCII digits in a string, as used by
`re.search(r'(\d+)', s)`. -/
def firstDigitRun : List Char → Option (List Char)
  | [] => none
  | c :: rest =>
    if c.isDigit then some (c :: rest.takeWhile Char.isDigit)
    else firstDigitRun rest

/-- Auxiliary for Python `s.replace(pat, rep)` (all non-overlapping
occurrences, scanning left to right); the fuel argument starts at the length
of the scanned list, which every step shrinks by at least one. -/
def replaceAllAux (pat rep : List Char) : Nat → List Char → List Char
  | _, [] => []
  | 0, s => s
  | fuel + 1, c :: rest =>
    if pat.isPrefixOf (c :: rest) then
      rep ++ replaceAllAux pat rep fuel (rest.drop (pat.length - 1))
    else c :: replaceAllAux pat rep fuel rest

/-- Python `s.replace(pat, rep)` on character lists (`pat` nonempty in every
use below; an empty `pat` leaves the string unchanged). -/
def replaceAll (s pat rep : List Char) : List Char :=
  if pat.isEmpty then s else replaceAllAux pat rep s.length s

/-- Python `s.replace(pat, rep)`. -/
def strReplace (s pat rep : String) : String :=
  ⟨replaceAll s.toList pat.toList rep.toList⟩

/-- One spreadsheet cell as handed to `process_sheet` (`header=None` read):
a pandas missing value, a text, or a number. -/
inductive Cell where
  | blank : Cell
  | str : String → Cell
  | num : Rat → Cell
deriving DecidableEq

/-- pandas `pd.isna` on a cell. -/
def cellIsNA : Cell → Bool
  | Cell.blank => true
  | _ => false

/-- Python `str()` rendering of an integral rational, as pandas renders the
float cells it reads (e.g. `45 ↦ "45.0"`); non-integral values get a
placeholder rendering — no claim stringifies a non-integral numeric cell. -/
def ratPyStr (q : Rat) : String :=
  if q.den = 1 then toString q.num ++ ".0"
  else toString q.num ++ "/" ++ toString q.den

/-- Python `str()` of a cell; a missing value prints as "nan". -/
def pyStr : Cell → String
  | Cell.blank => "nan"
  | Cell.str s => s
  | Cell.num q => ratPyStr q

/-- Core of `normalize_text` on an actual string: lowercase, strip, collapse
whitespace runs — `re.sub(r'\s+', ' ', str(text).lower().strip())`. -/
def pyNormalizeStr (s : String) : String :=
  ⟨collapseWs (stripChars (s.toList.map pyLowerChar))⟩

/-- Source `normalize_text`: empty string for a missing value, otherwise
lowercase, strip and collapse whitespace. -/
def normalize_text (c : Cell) : String :=
  if cellIsNA c then "" else pyNormalizeStr (pyStr c)

/-- `normalize_text` applied to a string literal (the source normalizes its
keyword constants through the same function). -/
def normStr (s : String) : String := normalize_text (Cell.str s)

/-- Python `str(col).strip()` of a header cell. -/
def cellStrStrip (c : Cell) : String := pyStrip (pyStr c)

/-- Digits-only integer (used for the exponent of a float literal), `none`
unless the input is one or more digits. -/
def parseIntDigits (cs : List Char) : Option Nat :=
  if cs.isEmpty then none
  else if cs.all Char.isDigit then some (digitsVal cs) else none

/-- Optionally signed digit run, as in the exponent of a Python float
literal. -/
def parseSignedDigits : List Char → Option Int
  | '+' :: rest => (parseIntDigits rest).map Int.ofNat
  | '-' :: rest => (parseIntDigits rest).map (fun n => -(Int.ofNat n))
  | cs => (parseIntDigits cs).map Int.ofNat

/-- Exponent suffix of a Python float literal: empty means exponent 0. -/
def parseExpPart : List Char → Option Int
  | [] => some 0
  | 'e' :: rest => parseSignedDigits rest
  | 'E' :: rest => parseSignedDigits rest
  | _ => none

/-- Mantissa of a Python float literal — `digits[.digits]`, `.digits` or
`digits.` — returning its value and the unconsumed remainder. -/
def parseMantissa (cs : List Char) : Option (Rat × List Char) :=
  let ip := cs.takeWhile Char.isDigit
  let r1 := cs.dropWhile Char.isDigit
  match r1 with
  | '.' :: r2 =>
    let fp := r2.takeWhile Char.isDigit
    let r3 := r2.dropWhile Char.isDigit
    if ip.isEmpty && fp.isEmpty then none
    else some ((digitsVal ip : Rat) + (digitsVal fp : Rat) / ((10 : Rat) ^ fp.length), r3)
  | _ => if ip.isEmpty then none else some ((digitsVal ip : Rat), r1)

/-- Python `float(s)` on a character list: strip whitespace, optional sign,
mantissa, optional exponent; `none` where `float` raises `ValueError`. -/
def pyFloatOfChars (cs0 : List Char) : Option Rat :=
  let cs1 := stripChars cs0
  let signAndRest : Rat × List Char :=
    match cs1 with
    | '+' :: r => (1, r)
    | '-' :: r => (-1, r)
    | r => (1, r)
  match parseMantissa signAndRest.2 with
  | none => none
  | some (m, rest) =>
    match parseExpPart rest with
    | none => none
    | some e => some (signAndRest.1 * m * (10 : Rat) ^ e)

/-- Python `float(s)`, `none` on parse failure. -/
def pyFloat (s : String) : Option Rat := pyFloatOfChars s.toList

/-- pandas `pd.to_numeric(v, errors='coerce')`: numbers pass through, strings
are parsed with the plain numeric grammar (no comma, no currency cleaning),
a missing value or parse failure coerces to `NaN`, modelled as `none`. -/
def toNumeric : Cell → Option Rat
  | Cell.blank => none
  | Cell.num q => some q
  | Cell.str s => pyFloat s

/-- Source `clean_currency`: `None` for a missing value; otherwise stringify,
delete spaces, `$`, `грн` and no-break spaces, turn the decimal comma into a
point and parse as float, `None` on failure. -/
def clean_currency (c : Cell) : Option Rat :=
  if cellIsNA c then none
  else
    let s0 := pyStr c
    let s1 := strReplace (strReplace (strReplace s0 " " "") "$" "") "грн" ""
    let s2 := strReplace (strReplace s1 "," ".") "\u00A0" ""
    pyFloat s2

/-- Source `extract_room_count`: first digit run of the stringified value,
kept only when its integer value is 1, 2 or 3. -/
def extract_room_count (c : Cell) : Option Int :=
  if cellIsNA c then none
  else
    match firstDigitRun (pyStr c).toList with
    | none => none
    | some ds =>
      let rooms : Int := digitsVal ds
      if rooms = 1 ∨ rooms = 2 ∨ rooms = 3 then some rooms else none

/-- One row of `find_header_row`'s scan: some cell's normalized text contains
some (already normalized) keyword as a substring. -/
def rowMatchesB (kws : List String) (row : List Cell) : Bool :=
  row.any (fun cell => kws.any (fun kw => strContains (normalize_text cell) kw))

/-- Loop of `find_header_row`: `i` is the index of the first row of the
remaining grid; an exhausted scan defaults to row 0. -/
def findHeaderRowAux (kws : List String) : Nat → List (List Cell) → Nat
  | _, [] => 0
  | i, row :: rest =>
    if rowMatchesB kws row then i else findHeaderRowAux kws (i + 1) rest

/-- Source `find_header_row`: index of the topmost row in which some cell's
normalized text contains some normalized keyword, scanning top to bottom;
0 when no row matches. -/
def find_header_row (grid : List (List Cell)) (keywords : List String) : Nat :=
  findHeaderRowAux (keywords.map normStr) 0 grid

/-- Default keyword list of `find_header_row`
(`['ID', 'Статус', 'Площа', 'ціна']`). -/
def defaultHeaderKeywords : List String := ["ID", "Статус", "Площа", "ціна"]

/-- One insertion into the dict comprehension
`{normalize_text(col): col for col in df.columns}`: a repeated key keeps its
original position but its value is overwritten by the later column. -/
def dictInsert (acc : List (String × Cell)) (k : String) (v : Cell) :
    List (String × Cell) :=
  if acc.any (fun p => p.1 == k) then
    acc.map (fun p => if p.1 == k then (k, v) else p)
  else acc ++ [(k, v)]

/-- The `col_map` dict of `find_best_column`, in Python dict insertion
order. -/
def buildColMap (headers : List Cell) : List (String × Cell) :=
  headers.foldl (fun acc c => dictInsert acc (normalize_text c) c) []

/-- Predicate of `find_best_column`'s inner loop on one normalized column
name: some candidate keyword occurs in it, no exclusion keyword occurs in
it. -/
def fbcMatchesB (colNorm : String) (cands excl : List String) : Bool :=
  cands.any (fun kw => strContains colNorm (normStr kw)) &&
    !(excl.any (fun e => strContains colNorm (normStr e)))

/-- Outer loop of `find_best_column`: try each priority level over the
`col_map` entries, returning the stored original column of the first entry
that matches. -/
def fbcScan (colMap : List (String × Cell)) (excl : List String) :
    List (List String) → Option Cell
  | [] => none
  | cands :: rest =>
    match colMap.find? (fun p => fbcMatchesB p.1 cands excl) with
    | some p => some p.2
    | none => fbcScan colMap excl rest

/-- Source `find_best_column`: priority-ordered keyword matching over the
dict of normalized column names. -/
def find_best_column (headers : List Cell) (candidatesList : List (List String))
    (excl : List String) : Option Cell :=
  fbcScan (buildColMap headers) excl candidatesList

/-- Priority-1 test for the price-per-meter column: normalized name exactly
`"ціна за метр"`, or (dead in practice, kept from the source) the stripped raw
name exactly `"ціна за метр "`. -/
def priceM2Primary (c : Cell) : Bool :=
  normalize_text c == "ціна за метр" || cellStrStrip c == "ціна за метр "

/-- Fallback test for the price-per-meter column: the removal-marker variant,
or price+meter+sale without the base/starting tokens. -/
def priceM2Fallback (c : Cell) : Bool :=
  let n := normalize_text c
  (strContains n "ціна за 1 м" && strContains n "видаляти") ||
    (strContains n "ціна" && strContains n "м" && strContains n "продаж" &&
      !strContains n "базов" && !strContains n "старт")

/-- Price-per-meter column resolution of `process_sheet` (two sequential
loops over the header cells, first match wins in each). -/
def findPriceM2Col (headers : List Cell) : Option Cell :=
  match headers.find? priceM2Primary with
  | some c => some c
  | none => headers.find? priceM2Fallback

/-- Priority test for the total-price column: normalized name contains
`"вартість для продажу"`. -/
def totalPricePrimary (c : Cell) : Bool :=
  strContains (normalize_text c) "вартість для продажу"

/-- Fallback test for the total-price column: the removal-marker variant or
the short `"вартість продажу"` variant. -/
def totalPriceFallback (c : Cell) : Bool :=
  let n := normalize_text c
  (strContains n "вартість" && strContains n "видаляти") ||
    strContains n "вартість продажу"

/-- Total-price column resolution of `process_sheet`. -/
def findTotalPriceCol (headers : List Cell) : Option Cell :=
  match headers.find? totalPricePrimary with
  | some c => some c
  | none => headers.find? totalPriceFallback

/-- Fixed raw synonym set of the rooms column rule 1. -/
def roomsRawSet : List String := ["Розмір", "Rooms", "К-сть кімнат", "Кімнат"]

/-- Rooms-column resolution of `process_sheet`: one pass over the header
cells; each column is tested first against the raw synonym set, then against
the normalized equality with `"розмір"`, and the first column passing either
test wins. -/
def findRoomsCol : List Cell → Option Cell
  | [] => none
  | c :: rest =>
    if cellStrStrip c ∈ roomsRawSet then some c
    else if normalize_text c = "розмір" then some c
    else findRoomsCol rest

/-- Combined per-column test of the two rooms rules. -/
def roomsColMatches (c : Cell) : Bool :=
  decide (cellStrStrip c ∈ roomsRawSet) || (normalize_text c == "розмір")

/-- Area-column resolution of `process_sheet`: normalized name exactly
`"площа"`. -/
def findAreaCol (headers : List Cell) : Option Cell :=
  headers.find? (fun c => normalize_text c == "площа")

/-- The per-sheet ColumnMap: one optional raw column per semantic field. -/
structure ColMap where
  priceM2 : Option Cell
  totalPrice : Option Cell
  rooms : Option Cell
  area : Option Cell
  status : Option Cell
  idCol : Option Cell
  cmplx : Option Cell
deriving DecidableEq

/-- Column identification block of `process_sheet`, in source order. -/
def resolve_columns (headers : List Cell) : ColMap where
  priceM2 := findPriceM2Col headers
  totalPrice := findTotalPriceCol headers
  rooms := findRoomsCol headers
  area := findAreaCol headers
  status := find_best_column headers [["статус"], ["стан", "state"]] []
  idCol := find_best_column headers [["id", "номер"]] []
  cmplx := find_best_column headers [["жк", "complex", "building"]] []

/-- A configured remap rule: a substring to look for and the complex name it
forces (`id_contains`/`sheet_contains` → `complex_name`). -/
structure Rule where
  key : String
  complexName : String
deriving DecidableEq

/-- The module-level configuration lists threaded through `process_sheet`. -/
structure Config where
  excludedIdMarkers : List String
  idToComplexRules : List Rule
  sheetToComplexRules : List Rule
  mixedSheetKeywords : List String
deriving DecidableEq

/-- pandas `row.get(col)` for a column label taken from the header row:
value at the first header position equal to the label, with missing values
(`NaN` padding) for short rows.  Labels handed to it always come from
`headers`, so the fallback for an absent label is never reached. -/
def rowGet (headers row : List Cell) (col : Cell) : Cell :=
  match headers.findIdx? (fun h => h == col) with
  | some i => row.getD i Cell.blank
  | none => Cell.blank

/-- One accepted apartment listing (`results.append({...})` of
`process_sheet`). -/
structure Record where
  group : String
  rooms : Int
  id : String
  area : Rat
  priceM2 : Option Rat
  totalPrice : Option Rat
deriving DecidableEq

/-- The `status_val` local of `process_sheet`'s row loop:
`str(row.get(status_col, '')).lower() if status_col else ''`. -/
def statusValOf (cm : ColMap) (headers row : List Cell) : String :=
  match cm.status with
  | some c => pyLowerS (pyStr (rowGet headers row c))
  | none => ""

/-- The `rooms` local: `extract_room_count(row.get(rooms_col)) if rooms_col
else None`. -/
def roomsOf (cm : ColMap) (headers row : List Cell) : Option Int :=
  match cm.rooms with
  | some c => extract_room_count (rowGet headers row c)
  | none => none

/-- The `area` local: `pd.to_numeric(row.get(area_col), errors='coerce') if
area_col else None` (the `pd.isna(area)` test of the filter is the `none`
case here). -/
def areaOf (cm : ColMap) (headers row : List Cell) : Option Rat :=
  match cm.area with
  | some c => toNumeric (rowGet headers row c)
  | none => none

/-- The `price_m2` local: `clean_currency(row.get(price_m2_col)) if
price_m2_col else None`. -/
def priceM2Of (cm : ColMap) (headers row : List Cell) : Option Rat :=
  match cm.priceM2 with
  | some c => clean_currency (rowGet headers row c)
  | none => none

/-- The `total_price` local: `clean_currency(row.get(total_price_col)) if
total_price_col else None`. -/
def totalPriceOf (cm : ColMap) (headers row : List Cell) : Option Rat :=
  match cm.totalPrice with
  | some c => clean_currency (rowGet headers row c)
  | none => none

/-- The `complex_name` local before any remap: the trimmed complex-column
value when the column is resolved and the cell is not missing, else the sheet
name. -/
def complexNameOf (cm : ColMap) (headers row : List Cell)
    (sheetName : String) : String :=
  match cm.cmplx with
  | some c =>
    if cellIsNA (rowGet headers row c) then sheetName
    else pyStrip (pyStr (rowGet headers row c))
  | none => sheetName

/-- The `apt_id` local: `str(row.get(id_col, '')).strip() if id_col else
''`. -/
def aptIdOf (cm : ColMap) (headers row : List Cell) : String :=
  match cm.idCol with
  | some c => pyStrip (pyStr (rowGet headers row c))
  | none => ""

/-- The configured-ID exclusion test:
`any(marker.upper() in apt_id.upper() for marker in EXCLUDED_ID_MARKERS)`. -/
def isExcludedId (cfg : Config) (aptId : String) : Bool :=
  cfg.excludedIdMarkers.any (fun m => strContains (pyUpperS aptId) (pyUpperS m))

/-- The mixed-sheet ID→complex remap: when the sheet name contains a
configured mixed keyword, the first ID rule whose fragment occurs in the
uppercased id overrides the complex name. -/
def mixedRemap (cfg : Config) (sheetName aptId base : String) : String :=
  if cfg.mixedSheetKeywords.any
      (fun k => strContains (pyLowerS sheetName) (pyLowerS k)) then
    match cfg.idToComplexRules.find?
        (fun ru => strContains (pyUpperS aptId) (pyUpperS ru.key)) with
    | some ru => ru.complexName
    | none => base
  else base

/-- The sheet-name → complex remap, applied unconditionally after the
mixed-sheet remap: the first rule whose fragment occurs in the lowercased
sheet name overrides the complex name. -/
def sheetRemap (cfg : Config) (sheetName base : String) : String :=
  match cfg.sheetToComplexRules.find?
      (fun ru => strContains (pyLowerS sheetName) (pyLowerS ru.key)) with
  | some ru => ru.complexName
  | none => base

/-- Row-acceptance pipeline of `process_sheet` for one data row, in source
order: status filter, rooms filter, area filter, price-presence filter,
configured-ID exclusion, then the record with complex resolution, mixed-sheet
remap and sheet-name remap folded into its group.  (The Python truthiness
tests `if status_col`, `if price_m2_col`, `if complex_col` are modelled as
`Option` matches: every resolvable column label normalizes to a nonempty
string, so a resolved label is never falsy.) -/
def processRow (cm : ColMap) (headers : List Cell) (sheetName : String)
    (cfg : Config) (row : List Cell) : Option Record :=
  if !strContains (statusValOf cm headers row) "вільно" then none else
  match roomsOf cm headers row with
  | none => none
  | some rooms =>
  if ¬(rooms = 1 ∨ rooms = 2 ∨ rooms = 3) then none else
  match areaOf cm headers row with
  | none => none
  | some area =>
  if area ≤ 0 then none else
  if priceM2Of cm headers row = none ∧ totalPriceOf cm headers row = none
    then none else
  if isExcludedId cfg (aptIdOf cm headers row) then none else
  some { group := sheetRemap cfg sheetName
           (mixedRemap cfg sheetName (aptIdOf cm headers row)
             (complexNameOf cm headers row sheetName)),
         rooms := rooms, id := aptIdOf cm headers row, area := area,
         priceM2 := priceM2Of cm headers row,
         totalPrice := totalPriceOf cm headers row }

/-- Source `process_sheet`: locate the header row, take its cells as the
column labels, resolve the semantic columns, and run every data row below the
header through the acceptance pipeline. -/
def process_sheet (grid : List (List Cell)) (sheetName : String)
    (cfg : Config) : List Record :=
  let hIdx := find_header_row grid defaultHeaderKeywords
  let headers := grid.getD hIdx []
  let cm := resolve_columns headers
  (grid.drop (hIdx + 1)).filterMap (processRow cm headers sheetName cfg)

/-- Both price fields present — the `dropna(subset=['PRICE_PER_M2',
'TOTAL_PRICE'])` keep-condition of `generate_summary`. -/
def bothPrices (r : Record) : Bool := r.priceM2.isSome && r.totalPrice.isSome

/-- Grouping key of `generate_summary`'s `groupby(['GROUP', 'ROOMS'])`. -/
def recKey (r : Record) : String × Int := (r.group, r.rooms)

/-- Distinct grouping keys in first-occurrence order. -/
def dedupKeysAux : List (String × Int) → List Record → List (String × Int)
  | acc, [] => acc
  | acc, r :: rs =>
    if recKey r ∈ acc then dedupKeysAux acc rs
    else dedupKeysAux (acc ++ [recKey r]) rs

/-- The set of `(GROUP, ROOMS)` keys `groupby` forms on a record list. -/
def groupKeys (df : List Record) : List (String × Int) := dedupKeysAux [] df

/-- pandas `idxmin`-style first minimum of `f` over a record list (ties keep
the earliest record). -/
def firstMinBy (f : Record → Rat) : List Record → Option Record
  | [] => none
  | r :: rs => some (rs.foldl (fun best x => if f x < f best then x else best) r)

/-- pandas `idxmax`-style first maximum of `f` over a record list (ties keep
the earliest record). -/
def firstMaxBy (f : Record → Rat) : List Record → Option Record
  | [] => none
  | r :: rs => some (rs.foldl (fun best x => if f best < f x then x else best) r)

/-- Price-per-area of a price-complete record (`generate_summary` only reads
this after dropping rows with a missing price). -/
def priceVal (r : Record) : Rat := r.priceM2.getD 0

/-- Total price of a price-complete record. -/
def totalVal (r : Record) : Rat := r.totalPrice.getD 0

/-- One output row of the summary, keyed by complex name and stringified room
count.  The source stores the extremal values as display text
(`f"{v:.1f}"`, `f"{v:,.0f} ({id})"`); the model keeps each value and source
id unformatted, since the claims under study concern the keys and the row
order, which the formatting does not influence. -/
structure SummaryRow where
  group : String
  roomsStr : String
  minArea : Rat
  maxArea : Rat
  minPriceM2 : Rat
  minPriceM2Id : String
  maxPriceM2 : Rat
  maxPriceM2Id : String
  minTotal : Rat
  minTotalId : String
deriving DecidableEq

/-- The summary row `generate_summary` appends for one `groupby` group; the
group of a key taken from `groupKeys` is never empty, so the `none` branch is
unreachable there. -/
def mkSummaryRow (df : List Record) (k : String × Int) : Option SummaryRow :=
  let g := df.filter (fun r => recKey r == k)
  match firstMinBy (fun r => r.area) g, firstMaxBy (fun r => r.area) g,
      firstMinBy priceVal g, firstMaxBy priceVal g, firstMinBy totalVal g with
  | some ra1, some ra2, some rp1, some rp2, some rt1 =>
    some { group := k.1, roomsStr := toString k.2,
           minArea := ra1.area, maxArea := ra2.area,
           minPriceM2 := priceVal rp1, minPriceM2Id := rp1.id,
           maxPriceM2 := priceVal rp2, maxPriceM2Id := rp2.id,
           minTotal := totalVal rt1, minTotalId := rt1.id }
  | _, _, _, _, _ => none

/-- Lexicographic strict order on character lists by code point — Python's
string `<`, which pandas' `sort_values` applies to the text columns. -/
def charListLt : List Char → List Char → Bool
  | _, [] => false
  | [], _ :: _ => true
  | a :: as, b :: bs =>
    if a < b then true else if b < a then false else charListLt as bs

/-- Lexicographic weak order on character lists by code point. -/
def charListLe : List Char → List Char → Bool
  | [], _ => true
  | _ :: _, [] => false
  | a :: as, b :: bs =>
    if a < b then true else if b < a then false else charListLe as bs

/-- Python string `<`. -/
def strLtB (a b : String) : Bool := charListLt a.data b.data

/-- Python string `<=`. -/
def strLeB (a b : String) : Bool := charListLe a.data b.data

theorem charListLt_eq_not_le (as bs : List Char) :
    charListLt as bs = !charListLe bs as := by
  induction as generalizing bs with
  | nil => cases bs <;> simp [charListLt, charListLe]
  | cons a as ih =>
    cases bs with
    | nil => simp [charListLt, charListLe]
    | cons b bs =>
      rcases lt_trichotomy a b with hab | rfl | hba
      · simp [charListLt, charListLe, hab, lt_asymm hab]
      · simp [charListLt, charListLe, lt_irrefl, ih]
      · simp [charListLt, charListLe, hba, lt_asymm hba]

theorem charListLe_trans {as bs cs : List Char} (h1 : charListLe as bs = true)
    (h2 : charListLe bs cs = true) : charListLe as cs = true := by
  induction as generalizing bs cs with
  | nil => simp [charListLe]
  | cons a as ih =>
    cases bs with
    | nil => simp [charListLe] at h1
    | cons b bs =>
      cases cs with
      | nil => simp [charListLe] at h2
      | cons c cs =>
        rcases lt_trichotomy a b with hab | rfl | hba
        · rcases lt_trichotomy b c with hbc | rfl | hcb
          · simp [charListLe, hab.trans hbc]
          · simp [charListLe, hab]
          · simp [charListLe, hcb, lt_asymm hcb] at h2
        · rcases lt_trichotomy a c with hac | rfl | hca
          · simp [charListLe, hac]
          · simp [charListLe, lt_irrefl] at h1 h2 ⊢
            exact ih h1 h2
          · simp [charListLe, hca, lt_asymm hca] at h2
        · simp [charListLe, hba, lt_asymm hba] at h1

theorem charListLe_total (as bs : List Char) :
    charListLe as bs = true ∨ charListLe bs as = true := by
  induction as generalizing bs with
  | nil => simp [charListLe]
  | cons a as ih =>
    cases bs with
    | nil => simp [charListLe]
    | cons b bs =>
      rcases lt_trichotomy a b with hab | rfl | hba
      · simp [charListLe, hab, lt_asymm hab]
      · simpa [charListLe, lt_irrefl] using ih bs
      · simp [charListLe, hba, lt_asymm hba]

theorem charListLe_antisymm {as bs : List Char} (h1 : charListLe as bs = true)
    (h2 : charListLe bs as = true) : as = bs := by
  induction as generalizing bs with
  | nil => cases bs with
    | nil => rfl
    | cons b bs => simp [charListLe] at h2
  | cons a as ih =>
    cases bs with
    | nil => simp [charListLe] at h1
    | cons b bs =>
      rcases lt_trichotomy a b with hab | rfl | hba
      · simp [charListLe, hab, lt_asymm hab] at h2
      · simp [charListLe, lt_irrefl] at h1 h2
        exact congrArg (a :: ·) (ih h1 h2)
      · simp [charListLe, hba, lt_asymm hba] at h1

/-- Row order of `summary.sort_values(by=['GROUP', 'ROOMS'])`: ascending by
complex name, then by the stringified room count — a comparison of strings,
exactly as pandas sorts the `ROOMS` column the source fills with
`str(room_count)`. -/
def rowLeProp (a b : SummaryRow) : Prop :=
  strLtB a.group b.group = true ∨
    (a.group = b.group ∧ strLeB a.roomsStr b.roomsStr = true)

instance : DecidableRel rowLeProp := fun a b => by
  unfold rowLeProp; infer_instance

theorem strLtB_eq_not_le (a b : String) : strLtB a b = !strLeB b a :=
  charListLt_eq_not_le a.data b.data

theorem strLeB_trans {a b c : String} (h1 : strLeB a b = true)
    (h2 : strLeB b c = true) : strLeB a c = true :=
  charListLe_trans h1 h2

theorem strLeB_total (a b : String) : strLeB a b = true ∨ strLeB b a = true :=
  charListLe_total a.data b.data

theorem str_eq_of_le_antisymm {a b : String} (h1 : strLeB a b = true)
    (h2 : strLeB b a = true) : a = b :=
  String.ext (charListLe_antisymm h1 h2)

theorem strLtB_trans {a b c : String} (h1 : strLtB a b = true)
    (h2 : strLtB b c = true) : strLtB a c = true := by
  rw [strLtB_eq_not_le] at h1 h2 ⊢
  have hba : strLeB b a = false := by simpa using h1
  have hcb : strLeB c b = false := by simpa using h2
  cases hca : strLeB c a with
  | false => simp
  | true =>
    rcases strLeB_total a b with hab | hba'
    · simp [strLeB_trans hca hab] at hcb
    · simp [hba'] at hba

instance : IsTotal SummaryRow rowLeProp where
  total a b := by
    unfold rowLeProp
    cases h1 : strLtB a.group b.group with
    | true => exact Or.inl (Or.inl rfl)
    | false =>
      cases h2 : strLtB b.group a.group with
      | true => exact Or.inr (Or.inl rfl)
      | false =>
        rw [strLtB_eq_not_le] at h1 h2
        have hba : strLeB b.group a.group = true := by simpa using h1
        have hab : strLeB a.group b.group = true := by simpa using h2
        have hg : a.group = b.group := str_eq_of_le_antisymm hab hba
        rcases strLeB_total a.roomsStr b.roomsStr with h | h
        · exact Or.inl (Or.inr ⟨hg, h⟩)
        · exact Or.inr (Or.inr ⟨hg.symm, h⟩)

instance : IsTrans SummaryRow rowLeProp where
  trans a b c hab hbc := by
    unfold rowLeProp at *
    rcases hab with h1 | ⟨h1, h1'⟩
    · rcases hbc with h2 | ⟨h2, _⟩
      · exact Or.inl (strLtB_trans h1 h2)
      · exact Or.inl (h2 ▸ h1)
    · rcases hbc with h2 | ⟨h2, h2'⟩
      · exact Or.inl (h1 ▸ h2)
      · exact Or.inr ⟨h1.trans h2, strLeB_trans h1' h2'⟩

/-- Source `generate_summary`: drop records missing either price, build one
row per `(GROUP, ROOMS)` key, and sort the rows by complex name and
stringified room count.  (The sort is modelled by insertion sort: the keys of
the produced rows are pairwise distinct, so every comparison sort yields this
same, unique sorted arrangement — pandas' `sort_values` included.  The
source's early return on empty input equals the generic path on `[]`.) -/
def generate_summary (data : List Record) : List SummaryRow :=
  let df := data.filter bothPrices
  List.insertionSort rowLeProp ((groupKeys df).filterMap (mkSummaryRow df))

/-! ## Claim C1: the generic column matcher -/

/-- The generic matcher as the specification words it: return the first
column in header order whose normalized name contains any keyword from the
current priority group and no excluded keyword.  (The source instead
iterates a dict keyed by normalized name; the two agree exactly when the
normalized header names are pairwise distinct.) -/
def find_best_column_spec (headers : List Cell) (excl : List String) :
    List (List String) → Option Cell
  | [] => none
  | cands :: rest =>
    match headers.find? (fun c => fbcMatchesB (normalize_text c) cands excl) with
    | some c => some c
    | none => find_best_column_spec headers excl rest

theorem foldl_dictInsert_nodup (hs : List Cell) (acc : List (String × Cell))
    (hdisj : ∀ p ∈ acc, p.1 ∉ hs.map normalize_text)
    (hnd : (hs.map normalize_text).Nodup) :
    hs.foldl (fun a c => dictInsert a (normalize_text c) c) acc =
      acc ++ hs.map (fun c => (normalize_text c, c)) := by
  induction hs generalizing acc with
  | nil => simp
  | cons c t ih =>
    have hany : acc.any (fun p => p.1 == normalize_text c) = false := by
      rw [List.any_eq_false]
      intro p hp
      have := hdisj p hp
      simp only [List.map_cons, List.mem_cons] at this
      simp only [beq_iff_eq]
      exact fun h => this (Or.inl h)
    have hstep : dictInsert acc (normalize_text c) c = acc ++ [(normalize_text c, c)] := by
      rw [dictInsert, hany]
      simp
    rw [List.foldl_cons, hstep, ih]
    · simp
    · intro p hp
      rcases List.mem_append.mp hp with hp' | hp'
      · have := hdisj p hp'
        simp only [List.map_cons, List.mem_cons] at this
        exact fun h => this (Or.inr h)
      · simp only [List.mem_singleton] at hp'
        subst hp'
        simp only [List.map_cons, List.nodup_cons] at hnd
        exact hnd.1
    · simp only [List.map_cons, List.nodup_cons] at hnd
      exact hnd.2

theorem buildColMap_of_nodup (hs : List Cell)
    (hnd : (hs.map normalize_text).Nodup) :
    buildColMap hs = hs.map (fun c => (normalize_text c, c)) := by
  simpa using foldl_dictInsert_nodup hs [] (by simp) hnd

theorem find?_mapped_pairs (cands excl : List String) (hs : List Cell) :
    (hs.map (fun c => (normalize_text c, c))).find?
        (fun p => fbcMatchesB p.1 cands excl) =
      Option.map (fun c => (normalize_text c, c))
        (hs.find? (fun c => fbcMatchesB (normalize_text c) cands excl)) := by
  induction hs with
  | nil => rfl
  | cons c t iht =>
    simp only [List.map_cons, List.find?]
    cases h : fbcMatchesB (normalize_text c) cands excl with
    | true => rfl
    | false => exact iht

theorem fbcScan_mapped (hs : List Cell) (excl : List String)
    (cl : List (List String)) :
    fbcScan (hs.map (fun c => (normalize_text c, c))) excl cl =
      find_best_column_spec hs excl cl := by
  induction cl with
  | nil => rfl
  | cons cands rest ih =>
    rw [fbcScan, find_best_column_spec, find?_mapped_pairs]
    cases hs.find? (fun c => fbcMatchesB (normalize_text c) cands excl) with
    | none => exact ih
    | some c => rfl

/-- C1 (amended): for every header list whose normalized names are pairwise
distinct, `find_best_column` returns the first column in header order whose
normalized name contains a keyword of the current priority group and no
excluded keyword, trying the priority groups in order — it coincides with the
specification's first-match reading `find_best_column_spec`.  (Without the
distinctness hypothesis the dict keeps only the last column of each
normalized name; see the counterexample.) -/
theorem c1_find_best_column_amended (headers : List Cell)
    (candidatesList : List (List String)) (excl : List String)
    (hnd : (headers.map normalize_text).Nodup) :
    find_best_column headers candidatesList excl =
      find_best_column_spec headers excl candidatesList := by
  unfold find_best_column
  rw [buildColMap_of_nodup headers hnd, fbcScan_mapped]

/-- C1 witness: on the distinct-normalization header list `["ID", "Статус"]`
with the status priority groups, the matcher and its specification reading
agree (both resolve the `"Статус"` column). -/
theorem c1_find_best_column_amended_witness :
    ([Cell.str "ID", Cell.str "Статус"].map normalize_text).Nodup ∧
      find_best_column [Cell.str "ID", Cell.str "Статус"]
          [["статус"], ["стан", "state"]] [] =
        find_best_column_spec [Cell.str "ID", Cell.str "Статус"] []
          [["статус"], ["стан", "state"]] :=
  ⟨by decide, c1_find_best_column_amended _ _ _ (by decide)⟩

/-- C1 counterexample: two status headers that normalize to the same string
`"статус"`.  The claim says the earlier column (`"Статус"`) is resolved; the
code's dict keeps the later one, so `find_best_column` returns the later
column `"статус"`, while the specification's first-match reading returns the
earlier `"Статус"`. -/
theorem c1_duplicate_normalization_counterexample :
    find_best_column [Cell.str "Статус", Cell.str "статус"] [["статус"]] [] =
        some (Cell.str "статус") ∧
      Cell.str "статус" ≠ Cell.str "Статус" ∧
      find_best_column_spec [Cell.str "Статус", Cell.str "статус"] []
          [["статус"]] = some (Cell.str "Статус") :=
  ⟨by decide, by decide, by decide⟩

/-! ## Claim C2: rooms-column resolution -/

/-- C2 (amended): the two rooms rules are not tried across the whole header
list in priority order; they are checked per column in a single pass, and the
first column in header order satisfying either the raw-synonym rule or the
normalized-`"розмір"` rule is resolved.  Hence an earlier column matching
only rule 2 beats a later column matching rule 1. -/
theorem c2_rooms_single_pass_amended (headers : List Cell) :
    findRoomsCol headers = headers.find? roomsColMatches := by
  induction headers with
  | nil => rfl
  | cons c rest ih =>
    by_cases h1 : cellStrStrip c ∈ roomsRawSet
    · simp [findRoomsCol, h1, List.find?, roomsColMatches]
    · by_cases h2 : normalize_text c = "розмір"
      · simp [findRoomsCol, h1, h2, List.find?, roomsColMatches]
      · have hb : (normalize_text c == "розмір") = false := by simpa using h2
        simp [findRoomsCol, h1, h2, List.find?, roomsColMatches, hb, ih]

/-- C2 counterexample: headers `["розмір", "Rooms"]`.  The raw header
`"Rooms"` is in the fixed synonym set (rule 1), yet the resolved rooms column
is the earlier `"розмір"`, which matches only rule 2 — rule 1 does not take
priority across the header list. -/
theorem c2_rooms_priority_counterexample :
    findRoomsCol [Cell.str "розмір", Cell.str "Rooms"] =
        some (Cell.str "розмір") ∧
      cellStrStrip (Cell.str "Rooms") ∈ roomsRawSet ∧
      Cell.str "розмір" ≠ Cell.str "Rooms" :=
  ⟨by decide, by decide, by decide⟩

/-! ## Claims C3, C7, C9, C10: the row-acceptance pipeline -/

theorem processRow_invariant {cm : ColMap} {headers : List Cell}
    {sheetName : String} {cfg : Config} {row : List Cell} {r : Record}
    (h : processRow cm headers sheetName cfg row = some r) :
    (r.rooms = 1 ∨ r.rooms = 2 ∨ r.rooms = 3) ∧ 0 < r.area ∧
      (r.priceM2 ≠ none ∨ r.totalPrice ≠ none) := by
  rw [processRow] at h
  repeat' split at h
  all_goals try exact Option.noConfusion h
  rw [Option.some.injEq] at h
  subst h
  simp only [not_not, not_le, not_and_or] at *
  refine ⟨?_, ?_, ?_⟩ <;> assumption

/-- C3: every record emitted by `process_sheet`, for every grid, sheet name
and configuration, has a room count in {1, 2, 3}, a strictly positive area,
and at least one of the two price fields present. -/
theorem c3_record_invariants (grid : List (List Cell)) (sheetName : String)
    (cfg : Config) (r : Record) (hr : r ∈ process_sheet grid sheetName cfg) :
    (r.rooms = 1 ∨ r.rooms = 2 ∨ r.rooms = 3) ∧ 0 < r.area ∧
      (r.priceM2 ≠ none ∨ r.totalPrice ≠ none) := by
  unfold process_sheet at hr
  rw [List.mem_filterMap] at hr
  obtain ⟨row, _, hrow⟩ := hr
  exact processRow_invariant hrow

/-- A small sheet whose first data row passes every filter: title rows, a
header row, one available row, one sold row. -/
def demoGrid : List (List Cell) :=
  [[Cell.str "Назва будинку"],
   [Cell.str "---"],
   [Cell.str "Статус", Cell.str "Розмір", Cell.str "Площа",
    Cell.str "ціна за метр", Cell.str "ID"],
   [Cell.str "вільно", Cell.str "1к", Cell.num 45, Cell.str "25000",
    Cell.str "A-101"],
   [Cell.str "продано", Cell.str "2к", Cell.num 50, Cell.str "30000",
    Cell.str "A-102"]]

/-- The empty configuration (the source file ships all five lists empty). -/
def demoCfg : Config := ⟨[], [], [], []⟩

/-- The one record `process_sheet` extracts from `demoGrid`. -/
def demoRec : Record :=
  { group := "ComplexA", rooms := 1, id := "A-101", area := 45,
    priceM2 := some 25000, totalPrice := none }

/-- C3 witness: the concrete record extracted from `demoGrid` satisfies the
invariants. -/
theorem c3_record_invariants_witness :
    (demoRec.rooms = 1 ∨ demoRec.rooms = 2 ∨ demoRec.rooms = 3) ∧
      0 < demoRec.area ∧ (demoRec.priceM2 ≠ none ∨ demoRec.totalPrice ≠ none) :=
  c3_record_invariants demoGrid "ComplexA" demoCfg demoRec (by decide)

theorem processRow_sheet_remap {cm : ColMap} {headers : List Cell}
    {sheetName : String} {cfg : Config} {row : List Cell} {r : Record}
    {rule : Rule}
    (hrule : cfg.sheetToComplexRules.find?
        (fun ru => strContains (pyLowerS sheetName) (pyLowerS ru.key)) =
      some rule)
    (h : processRow cm headers sheetName cfg row = some r) :
    r.group = rule.complexName := by
  rw [processRow] at h
  repeat' split at h
  all_goals try exact Option.noConfusion h
  rw [Option.some.injEq] at h
  subst h
  show sheetRemap cfg sheetName _ = rule.complexName
  rw [sheetRemap, hrule]

/-- C7: the sheet-name remap is applied last and unconditionally — whenever
some configured sheet→complex rule's substring occurs in the sheet name,
every record the sheet emits carries the complex name of the first such rule
in configuration order, whatever the complex column or the mixed-sheet remap
produced. -/
theorem c7_sheet_remap_overrides (grid : List (List Cell)) (sheetName : String)
    (cfg : Config) (r : Record) (rule : Rule)
    (hr : r ∈ process_sheet grid sheetName cfg)
    (hrule : cfg.sheetToComplexRules.find?
        (fun ru => strContains (pyLowerS sheetName) (pyLowerS ru.key)) =
      some rule) :
    r.group = rule.complexName := by
  unfold process_sheet at hr
  rw [List.mem_filterMap] at hr
  obtain ⟨row, _, hrow⟩ := hr
  exact processRow_sheet_remap hrule hrow

/-- Configuration carrying one sheet-name remap rule, as in the
specification's remap scenario. -/
def phase1Cfg : Config :=
  { excludedIdMarkers := [], idToComplexRules := [],
    sheetToComplexRules := [{ key := "Phase1", complexName := "ComplexA Phase 1" }],
    mixedSheetKeywords := [] }

/-- The record `process_sheet` extracts from `demoGrid` on the sheet
"Building Phase1 East" under `phase1Cfg`. -/
def phase1Rec : Record :=
  { group := "ComplexA Phase 1", rooms := 1, id := "A-101", area := 45,
    priceM2 := some 25000, totalPrice := none }

/-- C7 witness: the sheet "Building Phase1 East" emits its record with group
exactly "ComplexA Phase 1". -/
theorem c7_sheet_remap_overrides_witness :
    phase1Rec.group = "ComplexA Phase 1" :=
  c7_sheet_remap_overrides demoGrid "Building Phase1 East" phase1Cfg phase1Rec
    { key := "Phase1", complexName := "ComplexA Phase 1" }
    (by decide) (by decide)

/-- C9: when the ID column is resolved and the row's ID cell is a missing
value, the emitted record's id is the literal string "nan" — the stringified
missing value — and in particular not the empty string. -/
theorem c9_blank_id_stringifies_to_nan (cm : ColMap) (headers : List Cell)
    (sheetName : String) (cfg : Config) (row : List Cell) (r : Record)
    (c : Cell) (hid : cm.idCol = some c)
    (hcell : rowGet headers row c = Cell.blank)
    (h : processRow cm headers sheetName cfg row = some r) :
    r.id = "nan" ∧ r.id ≠ "" := by
  have hidv : aptIdOf cm headers row = "nan" := by
    simp only [aptIdOf, hid, hcell]
    decide
  rw [processRow] at h
  repeat' split at h
  all_goals try exact Option.noConfusion h
  rw [Option.some.injEq] at h
  subst h
  refine ⟨hidv, ?_⟩
  show aptIdOf cm headers row ≠ ""
  rw [hidv]
  decide

/-- Header row with an ID column, and a data row whose ID cell is blank. -/
def blankIdHeaders : List Cell :=
  [Cell.str "Статус", Cell.str "Розмір", Cell.str "Площа",
   Cell.str "ціна за метр", Cell.str "ID"]

/-- Data row with a blank ID cell that passes every other filter. -/
def blankIdRow : List Cell :=
  [Cell.str "вільно", Cell.str "1к", Cell.num 45, Cell.str "25000", Cell.blank]

/-- The record extracted from `blankIdRow`. -/
def blankIdRec : Record :=
  { group := "S", rooms := 1, id := "nan", area := 45,
    priceM2 := some 25000, totalPrice := none }

/-- C9 witness: the concrete blank-ID row yields a record whose id is
"nan". -/
theorem c9_blank_id_stringifies_to_nan_witness :
    blankIdRec.id = "nan" ∧ blankIdRec.id ≠ "" :=
  c9_blank_id_stringifies_to_nan (resolve_columns blankIdHeaders)
    blankIdHeaders "S" demoCfg blankIdRow blankIdRec (Cell.str "ID")
    (by decide) (by decide) (by decide)

/-- C10: the area filter coerces the area cell with plain `pd.to_numeric`,
not with `clean_currency`; whenever that plain coercion fails — as on the
locale-decimal-comma string "45,5" — the row yields no record, although
`clean_currency` would accept the very same text in a price column. -/
theorem c10_area_plain_coercion (cm : ColMap) (headers : List Cell)
    (sheetName : String) (cfg : Config) (row : List Cell) (c : Cell)
    (hc : cm.area = some c)
    (hnum : toNumeric (rowGet headers row c) = none) :
    processRow cm headers sheetName cfg row = none ∧
      toNumeric (Cell.str "45,5") = none ∧
      clean_currency (Cell.str "45,5") = some ((91 : Rat) / 2) := by
  refine ⟨?_, by decide, by decide⟩
  have harea : areaOf cm headers row = none := by
    rw [areaOf, hc]; exact hnum
  rw [processRow, harea]
  repeat' split
  all_goals simp_all

/-- Header row for the comma-area scenario. -/
def commaAreaHeaders : List Cell :=
  [Cell.str "Статус", Cell.str "Розмір", Cell.str "Площа",
   Cell.str "ціна за метр"]

/-- Data row whose area cell is the comma-decimal string "45,5" and which
passes every filter before the area filter. -/
def commaAreaRow : List Cell :=
  [Cell.str "вільно", Cell.str "1к", Cell.str "45,5", Cell.str "25000"]

/-- C10 witness: the comma-decimal area row is rejected although the same
text parses as a price. -/
theorem c10_area_plain_coercion_witness :
    processRow (resolve_columns commaAreaHeaders) commaAreaHeaders "S" demoCfg
        commaAreaRow = none ∧
      toNumeric (Cell.str "45,5") = none ∧
      clean_currency (Cell.str "45,5") = some ((91 : Rat) / 2) :=
  c10_area_plain_coercion (resolve_columns commaAreaHeaders) commaAreaHeaders
    "S" demoCfg commaAreaRow (Cell.str "Площа") (by decide) (by decide)

/-! ## Claim C5: clean_currency -/

/-- C5: `clean_currency` is total — a Lean function by construction, mirroring
the bare `except` of the source — with `none` on a missing value, the
locale-cleaned parse on text, and `none` on parse failure:
`"1 234,56 грн" ↦ 1234.56`, `"abc" ↦ none`, missing `↦ none`. -/
theorem c5_clean_currency_examples :
    clean_currency Cell.blank = none ∧
      clean_currency (Cell.str "1 234,56 грн") = some (1234.56 : Rat) ∧
      clean_currency (Cell.str "abc") = none ∧
      ∀ c : Cell, cellIsNA c = true → clean_currency c = none := by
  refine ⟨by decide, by decide, by decide, ?_⟩
  intro c hc
  rw [clean_currency, if_pos hc]

/-! ## Claim C6: the header locator -/

theorem findHeaderRowAux_spec (kws : List String) (l : List (List Cell)) :
    ∀ i : Nat,
      (findHeaderRowAux kws i l = 0 ∧
        ∀ row ∈ l, rowMatchesB kws row = false) ∨
      (∃ j, findHeaderRowAux kws i l = i + j ∧ j < l.length ∧
        rowMatchesB kws (l.getD j []) = true ∧
        ∀ m < j, rowMatchesB kws (l.getD m []) = false) := by
  induction l with
  | nil => intro i; exact Or.inl ⟨rfl, by simp⟩
  | cons row rest ih =>
    intro i
    by_cases h : rowMatchesB kws row = true
    · right
      refine ⟨0, ?_, by simp, by simpa using h, by omega⟩
      simp [findHeaderRowAux, h]
    · have hf : rowMatchesB kws row = false := by simpa using h
      have hstep : findHeaderRowAux kws i (row :: rest) =
          findHeaderRowAux kws (i + 1) rest := by
        simp [findHeaderRowAux, hf]
      rcases ih (i + 1) with ⟨h0, hall⟩ | ⟨j, hj, hjl, hjm, hjn⟩
      · left
        refine ⟨by rw [hstep, h0], ?_⟩
        intro r hr
        rcases List.mem_cons.mp hr with rfl | hr'
        · exact hf
        · exact hall r hr'
      · right
        refine ⟨j + 1, ?_, by simpa using hjl, by simpa using hjm, ?_⟩
        · rw [hstep, hj]; omega
        · intro m hm
          cases m with
          | zero => simpa using hf
          | succ m' => simpa using hjn m' (by omega)

/-- The specification's header-locator scenario: rows 0–1 carry unrelated
title text, row 2 carries "ID" and "Статус". -/
def titleGrid : List (List Cell) :=
  [[Cell.str "Назва комплексу"],
   [Cell.str "---"],
   [Cell.str "ID", Cell.str "Статус", Cell.str "Поверх"]]

/-- C6: `find_header_row` returns the index of the topmost row in which some
cell's normalized text contains some normalized keyword as a substring, and 0
when no row matches; on the title grid with "ID"/"Статус" in row 2 it returns
2. -/
theorem c6_header_row_topmost (grid : List (List Cell))
    (keywords : List String) :
    ((find_header_row grid keywords = 0 ∧
        ∀ row ∈ grid, rowMatchesB (keywords.map normStr) row = false) ∨
      (find_header_row grid keywords < grid.length ∧
        rowMatchesB (keywords.map normStr)
          (grid.getD (find_header_row grid keywords) []) = true ∧
        ∀ m < find_header_row grid keywords,
          rowMatchesB (keywords.map normStr) (grid.getD m []) = false)) ∧
      find_header_row titleGrid defaultHeaderKeywords = 2 := by
  refine ⟨?_, by decide⟩
  rcases findHeaderRowAux_spec (keywords.map normStr) grid 0 with h |
    ⟨j, hj, hjl, hjm, hjn⟩
  · exact Or.inl h
  · right
    have hval : find_header_row grid keywords = j := by
      rw [find_header_row, hj]; omega
    rw [hval]
    exact ⟨hjl, hjm, hjn⟩

/-! ## Claim C8: missing status column -/

theorem processRow_status_none {cm : ColMap} {headers : List Cell}
    {sheetName : String} {cfg : Config} (hst : cm.status = none)
    (row : List Cell) :
    processRow cm headers sheetName cfg row = none := by
  have hsv : statusValOf cm headers row = "" := by
    rw [statusValOf, hst]
  have hsc : strContains "" "вільно" = false := by decide
  rw [processRow, hsv, hsc]
  rfl

/-- C8: when no status column is resolved for the sheet, the availability
filter fails for every data row and `process_sheet` returns no records at
all — quiet degradation, not an error. -/
theorem c8_no_status_no_records (grid : List (List Cell)) (sheetName : String)
    (cfg : Config)
    (h : (resolve_columns
        (grid.getD (find_header_row grid defaultHeaderKeywords) [])).status =
      none) :
    process_sheet grid sheetName cfg = [] := by
  unfold process_sheet
  rw [List.filterMap_eq_nil_iff]
  intro row _
  exact processRow_status_none h row

/-- A sheet with rooms/area/price columns but no status column. -/
def noStatusGrid : List (List Cell) :=
  [[Cell.str "Розмір", Cell.str "Площа", Cell.str "ціна за метр"],
   [Cell.str "1к", Cell.num 45, Cell.str "25000"]]

/-- C8 witness: the status-less sheet yields zero records. -/
theorem c8_no_status_no_records_witness :
    process_sheet noStatusGrid "S" demoCfg = [] :=
  c8_no_status_no_records noStatusGrid "S" demoCfg (by decide)

/-! ## Claim C4: the summary's keys and row order -/

theorem mem_dedupKeysAux (k : String × Int) :
    ∀ (rs : List Record) (acc : List (String × Int)),
      k ∈ dedupKeysAux acc rs ↔ k ∈ acc ∨ ∃ r ∈ rs, recKey r = k := by
  intro rs
  induction rs with
  | nil => intro acc; simp [dedupKeysAux]
  | cons r t ih =>
    intro acc
    by_cases hmem : recKey r ∈ acc
    · rw [dedupKeysAux, if_pos hmem, ih]
      constructor
      · rintro (h | ⟨x, hx, hxk⟩)
        · exact Or.inl h
        · exact Or.inr ⟨x, List.mem_cons_of_mem r hx, hxk⟩
      · rintro (h | ⟨x, hx, hxk⟩)
        · exact Or.inl h
        · rcases List.mem_cons.mp hx with rfl | hx'
          · exact Or.inl (hxk ▸ hmem)
          · exact Or.inr ⟨x, hx', hxk⟩
    · rw [dedupKeysAux, if_neg hmem, ih]
      constructor
      · rintro (h | ⟨x, hx, hxk⟩)
        · rcases List.mem_append.mp h with h' | h'
          · exact Or.inl h'
          · simp only [List.mem_singleton] at h'
            exact Or.inr ⟨r, List.mem_cons_self r t, h'.symm⟩
        · exact Or.inr ⟨x, List.mem_cons_of_mem r hx, hxk⟩
      · rintro (h | ⟨x, hx, hxk⟩)
        · exact Or.inl (List.mem_append.mpr (Or.inl h))
        · rcases List.mem_cons.mp hx with rfl | hx'
          · exact Or.inl (List.mem_append.mpr (Or.inr (by simp [hxk])))
          · exact Or.inr ⟨x, hx', hxk⟩

theorem filter_key_ne_nil {rs : List Record} {k : String × Int}
    (h : k ∈ groupKeys rs) : rs.filter (fun r => recKey r == k) ≠ [] := by
  rw [groupKeys] at h
  rcases (mem_dedupKeysAux k rs []).mp h with h' | ⟨r, hr, hrk⟩
  · cases h'
  · intro hnil
    have hmem : r ∈ rs.filter (fun r => recKey r == k) :=
      List.mem_filter.mpr ⟨hr, by simp [hrk]⟩
    rw [hnil] at hmem
    cases hmem

theorem mkSummaryRow_some {df : List Record} {k : String × Int}
    (h : df.filter (fun r => recKey r == k) ≠ []) :
    ∃ row, mkSummaryRow df k = some row ∧ row.group = k.1 ∧
      row.roomsStr = toString k.2 := by
  cases hg : df.filter (fun r => recKey r == k) with
  | nil => exact absurd hg h
  | cons a l =>
    rw [mkSummaryRow]
    simp only [hg, firstMinBy, firstMaxBy]
    exact ⟨_, rfl, rfl, rfl⟩

theorem filterMap_mkSummaryRow_keys (df : List Record) :
    ∀ ks : List (String × Int),
      (∀ k ∈ ks, df.filter (fun r => recKey r == k) ≠ []) →
      (ks.filterMap (mkSummaryRow df)).map
          (fun row => (row.group, row.roomsStr)) =
        ks.map (fun k => (k.1, toString k.2)) := by
  intro ks
  induction ks with
  | nil => intro _; rfl
  | cons k t ih =>
    intro hall
    obtain ⟨row, hrow, hg, hr⟩ := mkSummaryRow_some (hall k (List.mem_cons_self k t))
    rw [List.filterMap_cons, hrow, List.map_cons, List.map_cons,
      ih (fun k' hk' => hall k' (List.mem_cons_of_mem k hk'))]
    rw [hg, hr]

/-- C4 (amended): for every input record list the summary has exactly one row
for every `(group, rooms)` key occurring among the records with both prices
present — the multiset of the rows' `(group, stringified rooms)` keys equals
that of the grouping keys — and its rows are sorted by group and then by the
room count's decimal-string representation (pandas sorts the `ROOMS` column,
which the source fills with `str(room_count)`, so the comparison is a string
comparison; it coincides with numeric order exactly when, as for the records
this pipeline produces, all room counts are single-digit). -/
theorem c4_summary_keys_sorted_amended (rs : List Record) :
    ((generate_summary rs).map (fun row => (row.group, row.roomsStr))).Perm
        ((groupKeys (rs.filter bothPrices)).map
          (fun k => (k.1, toString k.2))) ∧
      List.Sorted rowLeProp (generate_summary rs) ∧
      ∀ k : String × Int,
        (k ∈ groupKeys (rs.filter bothPrices) ↔
          ∃ r ∈ rs, bothPrices r = true ∧ recKey r = k) := by
  refine ⟨?_, ?_, ?_⟩
  · show ((List.insertionSort rowLeProp _).map _).Perm _
    refine ((List.perm_insertionSort rowLeProp _).map _).trans ?_
    rw [filterMap_mkSummaryRow_keys]
    intro k hk
    exact filter_key_ne_nil hk
  · exact List.sorted_insertionSort rowLeProp _
  · intro k
    rw [groupKeys, mem_dedupKeysAux]
    simp only [List.mem_filter, List.not_mem_nil, false_or]
    constructor
    · rintro ⟨r, ⟨hr, hb⟩, hk⟩
      exact ⟨r, hr, hb, hk⟩
    · rintro ⟨r, hr, hb, hk⟩
      exact ⟨r, ⟨hr, hb⟩, hk⟩

/-- C4 counterexample: two price-complete records in group "X" with room
counts 2 and 10.  Under the claimed numeric ordering the rooms-2 row would
come first; the code sorts the stringified column, so "10" sorts before "2"
and the summary lists the rooms-10 row first. -/
theorem c4_string_sort_counterexample :
    (generate_summary
        [{ group := "X", rooms := 2, id := "a", area := 40,
           priceM2 := some 100, totalPrice := some 100 },
         { group := "X", rooms := 10, id := "b", area := 50,
           priceM2 := some 200, totalPrice := some 200 }]).map
      (fun row => row.roomsStr) = ["10", "2"] := by decide

end GEP
